import Mathlib

/-!
# Verification of the xcp copy utility core (libfs/common.rs and main.rs)

Shallow embedding of the pure/IO-structured functions of the repository:
`merge_extents`, `is_same_file`, `copy_bytes_uspace`, `copy_range_uspace`,
`copy_bytes_batched`, `copy_xattr`, `copy_permissions`, and the pre-flight
portion of `main`.  IO is modelled with explicit oracles (one response per
syscall invocation) and a fuel-indexed loop semantics; `u64`/`usize` are
modelled as `Nat` (file offsets and lengths never overflow 64 bits in the
modelled arithmetic, where the only operation is `p.end + 1`).
-/

/-- Abstraction of `std::io::ErrorKind` / OS errno values: the `Interrupted`
kind (EINTR) is distinguished, all other kinds are collapsed into a code. -/
inductive ErrKind where
  | interrupted : ErrKind
  | other : Nat → ErrKind
deriving DecidableEq, Repr

/-- The error type of the crate (`libfs::errors::Error` / `libxcp::errors::XcpError`)
as used by the embedded functions.  String payloads are the exact message
literals from the source. -/
inductive XErr where
  | invalidArguments : String → XErr
  | invalidSource : String → XErr
  | invalidDestination : String → XErr
  | destinationExists : String → String → XErr
  | io : ErrKind → XErr
deriving DecidableEq, Repr

/-- The type `std::ops::Range<u64>` as used for file extents: a half-open range
`[start, stop)`.  The Rust field `end` is a Lean keyword, hence `stop`. -/
structure ByteRange where
  start : Nat
  stop : Nat
deriving DecidableEq, Repr

/-- The loop of `merge_extents` (common.rs lines 130-149): iterate over the
extents keeping the previous candidate `prev`; when the next extent `e`
satisfies `e.start == p.end + 1` the two are coalesced into `p.start..e.end`,
otherwise `p` is pushed onto `merged` and `e` becomes the candidate. -/
def merge_extents_loop : List ByteRange → Option ByteRange → List ByteRange → List ByteRange
  | [], none, merged => merged
  | [], some p, merged => merged ++ [p]
  | e :: es, none, merged => merge_extents_loop es (some e) merged
  | e :: es, some p, merged =>
    if e.start = p.stop + 1 then
      merge_extents_loop es (some { start := p.start, stop := e.stop }) merged
    else
      merge_extents_loop es (some e) (merged ++ [p])

/-- The result value computed by `merge_extents`. -/
def merge_extents_list (extents : List ByteRange) : List ByteRange :=
  merge_extents_loop extents none []

/-- The function `merge_extents` (common.rs lines 127-152).  The Rust function returns
`Result<Vec<Range<u64>>>`; its body contains no fallible operation, so the
embedding wraps the loop result in `Except.ok`. -/
def merge_extents (extents : List ByteRange) : Except XErr (List ByteRange) :=
  Except.ok (merge_extents_list extents)

/-- Whether byte position `x` is covered by one of the ranges in `rs`
(the union of the half-open ranges, as a decidable membership test). -/
def coveredPos (rs : List ByteRange) (x : Nat) : Bool :=
  rs.any (fun r => decide (r.start ≤ x) && decide (x < r.stop))

/-- Result of one `read`/`pread` syscall: either the number of bytes read,
or an error of some kind. -/
inductive ReadRes where
  | ok : Nat → ReadRes
  | err : ErrKind → ReadRes
deriving DecidableEq, Repr

/-- Result of one `write_all` call: success, or an error of some kind. -/
inductive WriteRes where
  | ok : WriteRes
  | err : ErrKind → WriteRes
deriving DecidableEq, Repr

/-- Result of one `pwrite` syscall: the number of bytes written, or an error. -/
inductive PwriteRes where
  | ok : Nat → PwriteRes
  | err : ErrKind → PwriteRes
deriving DecidableEq, Repr

/-- Outcome of running a copy loop under a finite fuel bound: a successful
byte count, an error return, or fuel exhaustion (`diverge`, standing for a
run longer than the fuel; never produced by a completed run). -/
inductive Outcome where
  | ok : Nat → Outcome
  | error : XErr → Outcome
  | diverge : Outcome
deriving DecidableEq, Repr

/-- The loop of `copy_bytes_uspace` (common.rs lines 106-117).  `readF i m`
is the result of the `i`-th `reader.read` call, issued with a buffer slice
of length `m`; `writeF j` is the result of the `j`-th `writer.write_all`
call.  `Ok(0)` from read is a fatal `InvalidSource`; an `Interrupted` read
error re-enters the loop; any other read error and any write error is
returned. -/
def copy_bytes_uspace_go (readF : Nat → Nat → ReadRes) (writeF : Nat → WriteRes)
    (nbytes : Nat) : Nat → Nat → Nat → Nat → Outcome
  | 0, _, _, _ => .diverge
  | fuel + 1, ridx, widx, written =>
    if written < nbytes then
      let next := min (nbytes - written) nbytes
      match readF ridx next with
      | .ok 0 => .error (.invalidSource "Source file ended prematurely.")
      | .ok len =>
        match writeF widx with
        | .ok => copy_bytes_uspace_go readF writeF nbytes fuel (ridx + 1) (widx + 1) (written + len)
        | .err k => .error (.io k)
      | .err k =>
        if k = .interrupted then copy_bytes_uspace_go readF writeF nbytes fuel (ridx + 1) widx written
        else .error (.io k)
    else .ok written

/-- The function `copy_bytes_uspace` (common.rs lines 103-119), entered with
`written = 0` and fresh oracle cursors. -/
def copy_bytes_uspace (readF : Nat → Nat → ReadRes) (writeF : Nat → WriteRes)
    (nbytes fuel : Nat) : Outcome :=
  copy_bytes_uspace_go readF writeF nbytes fuel 0 0 0

/-- The loop of `copy_range_uspace` (common.rs lines 78-98).  `preadF i m o`
is the result of the `i`-th `read_bytes` (pread) call with buffer length `m`
at offset `o`; `pwriteF j m o` is the result of the `j`-th `write_bytes`
(pwrite) call writing `m` bytes at offset `o`.  `Ok(0)` from pread is a
fatal `InvalidSource`; any pread error is returned (no EINTR retry); a
short write (`wlen < rlen`) is a fatal `InvalidSource`. -/
def copy_range_uspace_go (preadF : Nat → Nat → Nat → ReadRes)
    (pwriteF : Nat → Nat → Nat → PwriteRes)
    (nbytes off : Nat) : Nat → Nat → Nat → Nat → Outcome
  | 0, _, _, _ => .diverge
  | fuel + 1, ridx, widx, written =>
    if written < nbytes then
      let next := min (nbytes - written) nbytes
      let noff := off + written
      match preadF ridx next noff with
      | .ok 0 => .error (.invalidSource "Source file ended prematurely.")
      | .ok rlen =>
        match pwriteF widx rlen noff with
        | .ok wlen =>
          if wlen < rlen then .error (.invalidSource "Failed write to file.")
          else copy_range_uspace_go preadF pwriteF nbytes off fuel (ridx + 1) (widx + 1) (written + rlen)
        | .err k => .error (.io k)
      | .err k => .error (.io k)
    else .ok written

/-- The function `copy_range_uspace` (common.rs lines 74-100), entered with `written = 0`. -/
def copy_range_uspace (preadF : Nat → Nat → Nat → ReadRes)
    (pwriteF : Nat → Nat → Nat → PwriteRes) (nbytes off fuel : Nat) : Outcome :=
  copy_range_uspace_go preadF pwriteF nbytes off fuel 0 0 0

/-- The loop of `copy_bytes_batched` (common.rs lines 168-174).  `cfbF i m`
is the result of the `i`-th `copy_file_bytes` call asked to copy `m` bytes;
`cbF i n` is the result of the `i`-th `callback(n)` call.  Errors from
either propagate via `?`. -/
def copy_bytes_batched_go (cfbF : Nat → Nat → Except XErr Nat)
    (cbF : Nat → Nat → Except XErr Unit)
    (len batch_size : Nat) : Nat → Nat → Nat → Outcome
  | 0, _, _ => .diverge
  | fuel + 1, idx, written =>
    if written < len then
      let bytes_to_copy := min (len - written) batch_size
      match cfbF idx bytes_to_copy with
      | .error e => .error e
      | .ok result =>
        match cbF idx result with
        | .error e => .error e
        | .ok _ => copy_bytes_batched_go cfbF cbF len batch_size fuel (idx + 1) (written + result)
    else .ok written

/-- The function `copy_bytes_batched` (common.rs lines 165-177), entered with `written = 0`. -/
def copy_bytes_batched (cfbF : Nat → Nat → Except XErr Nat)
    (cbF : Nat → Nat → Except XErr Unit) (len batch_size fuel : Nat) : Outcome :=
  copy_bytes_batched_go cfbF cbF len batch_size fuel 0 0

/-- Contract of `File::read` on a real file (POSIX `read`): the returned
count never exceeds the requested buffer length. -/
def ReadContract (readF : Nat → Nat → ReadRes) : Prop :=
  ∀ i m n, readF i m = .ok n → n ≤ m

/-- Contract of `read_bytes`/`pread` (POSIX `pread`): the returned count
never exceeds the requested buffer length. -/
def PreadContract (preadF : Nat → Nat → Nat → ReadRes) : Prop :=
  ∀ i m o n, preadF i m o = .ok n → n ≤ m

/-- Modelled from the spec: `copy_file_bytes` (the kernel-primitive Byte
Mover, declared in `libfs` outside the provided sources) "only copies a set
amount of bytes": a successful call returns at most the requested count. -/
def CopyFileBytesContract (cfbF : Nat → Nat → Except XErr Nat) : Prop :=
  ∀ i m n, cfbF i m = .ok n → n ≤ m

/-- The `(ino, dev)` pair read from `Metadata` by `is_same_file`. -/
structure FileStat where
  ino : Nat
  dev : Nat
deriving DecidableEq, Repr

/-- The function `is_same_file` (common.rs lines 155-162).  `metaF p` is the result of
`p.metadata()`; errors propagate via `?`; the paths are the same file iff
both inode and device numbers agree. -/
def is_same_file (metaF : String → Except XErr FileStat) (src dest : String) :
    Except XErr Bool :=
  match metaF src with
  | .error e => .error e
  | .ok sstat =>
    match metaF dest with
    | .error e => .error e
    | .ok dstat => .ok (decide (sstat.ino = dstat.ino) && decide (sstat.dev = dstat.dev))

/-- The per-attribute loop of `copy_xattr` (common.rs lines 36-41): for each
attribute name, `get_xattr` then, when a value is present, `set_xattr`;
any error propagates via `?`. -/
def copy_xattr_go (getF : String → Except XErr (Option (List Nat)))
    (setF : String → List Nat → Except XErr Unit) : List String → Except XErr Unit
  | [] => .ok ()
  | attr :: rest =>
    match getF attr with
    | .error e => .error e
    | .ok none => copy_xattr_go getF setF rest
    | .ok (some val) =>
      match setF attr val with
      | .error e => .error e
      | .ok _ => copy_xattr_go getF setF rest

/-- The function `copy_xattr` (common.rs lines 32-44).  `xattrSupported` is the platform
constant `XATTR_SUPPORTED` (declared in `libfs` outside the provided
sources); `listRes` is the result of `infd.list_xattr()`. -/
def copy_xattr (xattrSupported : Bool) (listRes : Except XErr (List String))
    (getF : String → Except XErr (Option (List Nat)))
    (setF : String → List Nat → Except XErr Unit) : Except XErr Unit :=
  if xattrSupported then
    match listRes with
    | .error e => .error e
    | .ok attrs => copy_xattr_go getF setF attrs
  else .ok ()

/-- Observable actions of `copy_permissions`, in order of occurrence:
the xattr copy attempt, the warning logged when it fails, and the
`set_permissions` call on the destination. -/
inductive PermEvent where
  | xattrCopy : PermEvent
  | warnXattrFailed : PermEvent
  | permissionsSet : PermEvent
deriving DecidableEq, Repr

/-- The function `copy_permissions` (common.rs lines 46-62).  The xattr copy runs first;
an error from it is only logged as a warning.  Then `infd.metadata()?` and
`outfd.set_permissions(...)?`, whose errors propagate.  `metaRes` is the
result of `infd.metadata()` projected to its permission bits (an abstract
`Nat`); `setPermF` is the result of `outfd.set_permissions`.  Returns the
function result together with the trace of observable actions. -/
def copy_permissions (xattrSupported : Bool) (listRes : Except XErr (List String))
    (getF : String → Except XErr (Option (List Nat)))
    (setF : String → List Nat → Except XErr Unit)
    (metaRes : Except XErr Nat) (setPermF : Nat → Except XErr Unit) :
    Except XErr Unit × List PermEvent :=
  let xr := copy_xattr xattrSupported listRes getF setF
  let warn : List PermEvent :=
    match xr with
    | .error _ => [.warnXattrFailed]
    | .ok _ => []
  match metaRes with
  | .error e => (.error e, .xattrCopy :: warn)
  | .ok perms =>
    match setPermF perms with
    | .error e => (.error e, .xattrCopy :: warn ++ [.permissionsSet])
    | .ok _ => (.ok (), .xattrCopy :: warn ++ [.permissionsSet])

/-- The CLI options consumed by the embedded portion of `main`
(main.rs / options.rs). -/
structure Opts where
  paths : List String
  glob : Bool
  no_clobber : Bool
  recursive : Bool
deriving Repr

/-- Filesystem oracle for `main`: results of the path predicates and of
`is_same_file`, plus the glob expansion of `expand_globs`. -/
structure Fs where
  isDir : String → Bool
  isFile : String → Bool
  pathExists : String → Bool
  sameFile : String → String → Except XErr Bool
  globExpand : List String → Except XErr (List String)

/-- The driver call `main` ends up submitting: `copy_single` for the
single-source-onto-existing-file case, else `copy_all`. -/
inductive MainAction where
  | copySingle : String → String → MainAction
  | copyAll : List String → String → MainAction
deriving DecidableEq, Repr

/-- The function `expand_sources` (main.rs lines 74-83): glob expansion when `--glob`
is set, otherwise the patterns are taken as literal paths. -/
def expand_sources (source_list : List String) (o : Opts) (fs : Fs) :
    Except XErr (List String) :=
  if o.glob then fs.globExpand source_list else .ok source_list

/-- The per-source sanity-check loop of `main` (main.rs lines 134-151). -/
def check_sources (fs : Fs) (recursive : Bool) (dest : String) :
    List String → Except XErr Unit
  | [] => .ok ()
  | source :: rest =>
    if !(fs.pathExists source) then .error (.invalidSource "Source does not exist.")
    else if fs.isDir source && !recursive then
      .error (.invalidSource "Source is directory and --recursive not specified.")
    else if source = dest then
      .error (.invalidSource "Cannot copy a directory into itself")
    else if fs.pathExists dest && !(fs.isDir dest) then
      .error (.invalidDestination "Source is directory but target exists and is not a directory")
    else check_sources fs recursive dest rest

/-- The decision flow of `main` (main.rs lines 85-154) from `split_last` on
the argument paths up to the driver call, abstracting argument parsing,
logging and the status-channel drain.  `loadDriverRes` is the result of
`load_driver`.  An `Except.ok` result carries the driver call that is
submitted; every `Except.error` result is returned before any copy work is
submitted. -/
def xcp_main (o : Opts) (fs : Fs) (loadDriverRes : Except XErr Unit) :
    Except XErr MainAction :=
  match o.paths.getLast? with
  | none => .error (.invalidArguments "Insufficient arguments")
  | some dest =>
    let source_patterns := o.paths.dropLast
    if source_patterns.length > 1 && !(fs.isDir dest) then
      .error (.invalidDestination "Multiple sources and destination is not a directory.")
    else
      match expand_sources source_patterns o fs with
      | .error e => .error e
      | .ok sources =>
        if sources.isEmpty then .error (.invalidSource "No source files found.")
        else
          match loadDriverRes with
          | .error e => .error e
          | .ok _ =>
            match sources, fs.isFile dest with
            | [source], true =>
              if o.no_clobber then
                .error (.destinationExists "Destination file exists and --no-clobber is set." dest)
              else
                match fs.sameFile source dest with
                | .error e => .error e
                | .ok true =>
                  .error (.destinationExists "Source and destination is the same file." dest)
                | .ok false => .ok (.copySingle source dest)
            | sources, _ =>
              match check_sources fs o.recursive dest sources with
              | .error e => .error e
              | .ok _ => .ok (.copyAll sources dest)

/-! ## Helper lemmas for merge_extents -/

/-- The output of the merge loop has no pair of consecutive ranges that
still satisfies the adjacency condition `q.start = p.stop + 1`. -/
theorem merge_extents_loop_chain (es : List ByteRange) :
    ∀ (p : ByteRange) (merged : List ByteRange),
      List.Chain' (fun a b => b.start ≠ a.stop + 1) (merged ++ [p]) →
      List.Chain' (fun a b => b.start ≠ a.stop + 1) (merge_extents_loop es (some p) merged) := by
  induction es with
  | nil =>
    intro p merged h
    simpa [merge_extents_loop] using h
  | cons e es ih =>
    intro p merged h
    rw [List.chain'_append] at h
    by_cases hadj : e.start = p.stop + 1
    · rw [merge_extents_loop, if_pos hadj]
      apply ih
      rw [List.chain'_append]
      refine ⟨h.1, List.chain'_singleton _, ?_⟩
      intro a ha b hb
      simp only [List.head?_cons, Option.mem_def, Option.some.injEq] at hb
      subst hb
      exact h.2.2 a ha p (by simp)
    · rw [merge_extents_loop, if_neg hadj]
      apply ih
      rw [List.chain'_append]
      refine ⟨?_, List.chain'_singleton _, ?_⟩
      · rw [List.chain'_append]
        exact h
      · intro a ha b hb
        simp only [List.head?_cons, Option.mem_def, Option.some.injEq] at hb
        rw [List.getLast?_concat] at ha
        simp only [Option.mem_def, Option.some.injEq] at ha
        subst ha; subst hb
        exact hadj

/-- The result of `merge_extents` never contains an adjacent pair. -/
theorem merge_extents_list_chain (xs : List ByteRange) :
    List.Chain' (fun a b => b.start ≠ a.stop + 1) (merge_extents_list xs) := by
  cases xs with
  | nil => simp [merge_extents_list, merge_extents_loop]
  | cons x xs =>
    exact merge_extents_loop_chain xs x [] (by simp)

/-- On an input with no adjacent pair, the merge loop is a plain append. -/
theorem merge_extents_loop_of_chain (es : List ByteRange) :
    ∀ (p : ByteRange) (merged : List ByteRange),
      List.Chain' (fun a b => b.start ≠ a.stop + 1) (p :: es) →
      merge_extents_loop es (some p) merged = merged ++ p :: es := by
  induction es with
  | nil => intro p merged _; rfl
  | cons e es ih =>
    intro p merged h
    rw [List.chain'_cons] at h
    rw [merge_extents_loop, if_neg h.1, ih e (merged ++ [p]) h.2]
    simp

/-- An input with no adjacent pair is a fixed point of `merge_extents_list`. -/
theorem merge_extents_list_of_chain (xs : List ByteRange)
    (h : List.Chain' (fun a b => b.start ≠ a.stop + 1) xs) :
    merge_extents_list xs = xs := by
  cases xs with
  | nil => rfl
  | cons x xs =>
    simpa [merge_extents_list, merge_extents_loop] using
      merge_extents_loop_of_chain xs x [] h

/-- Coverage invariant of the merge loop: with well-formed remaining input
and a well-formed candidate, every position covered by the accumulator, the
candidate, or the remaining input is covered by the output. -/
theorem merge_extents_loop_covers (es : List ByteRange) :
    ∀ (p : ByteRange) (merged : List ByteRange) (x : Nat),
      (∀ r ∈ es, r.start ≤ r.stop) → p.start ≤ p.stop →
      (coveredPos merged x = true ∨ (p.start ≤ x ∧ x < p.stop) ∨ coveredPos es x = true) →
      coveredPos (merge_extents_loop es (some p) merged) x = true := by
  induction es with
  | nil =>
    intro p merged x _ _ hx
    rw [merge_extents_loop]
    rcases hx with hm | hp | habs
    · simp [coveredPos, List.any_append] at hm ⊢
      exact Or.inl hm
    · simp [coveredPos, List.any_append]
      exact Or.inr ⟨hp.1, hp.2⟩
    · simp [coveredPos] at habs
  | cons e es ih =>
    intro p merged x hwf hp hx
    have hewf : e.start ≤ e.stop := hwf e (by simp)
    have hwf' : ∀ r ∈ es, r.start ≤ r.stop := fun r hr => hwf r (by simp [hr])
    by_cases hadj : e.start = p.stop + 1
    · rw [merge_extents_loop, if_pos hadj]
      have hse : p.stop + 1 ≤ e.stop := by rw [← hadj]; exact hewf
      refine ih { start := p.start, stop := e.stop } merged x hwf'
        (show p.start ≤ e.stop by omega) ?_
      rcases hx with hm | hpx | hex
      · exact Or.inl hm
      · refine Or.inr (Or.inl ⟨hpx.1, ?_⟩)
        exact lt_trans hpx.2 (Nat.lt_of_lt_of_le (Nat.lt_succ_self _) hse)
      · simp only [coveredPos, List.any_cons, Bool.or_eq_true] at hex
        rcases hex with hex | hex
        · simp only [Bool.and_eq_true, decide_eq_true_eq] at hex
          refine Or.inr (Or.inl ⟨?_, hex.2⟩)
          calc p.start ≤ p.stop := hp
            _ ≤ p.stop + 1 := Nat.le_succ _
            _ = e.start := hadj.symm
            _ ≤ x := hex.1
        · exact Or.inr (Or.inr hex)
    · rw [merge_extents_loop, if_neg hadj]
      apply ih _ _ _ hwf' hewf
      rcases hx with hm | hpx | hex
      · refine Or.inl ?_
        simp [coveredPos, List.any_append] at hm ⊢
        exact Or.inl hm
      · refine Or.inl ?_
        simp [coveredPos, List.any_append]
        exact Or.inr ⟨hpx.1, hpx.2⟩
      · simp only [coveredPos, List.any_cons, Bool.or_eq_true] at hex
        rcases hex with hex | hex
        · simp only [Bool.and_eq_true, decide_eq_true_eq] at hex
          exact Or.inr (Or.inl hex)
        · exact Or.inr (Or.inr hex)

/-! ## Claim theorems for merge_extents -/

/-- C2: `merge_extents` coalesces the candidate `p` with the next range `e`
iff `e.start = p.end + 1` (stated both as the loop-step equation and on a
two-range input), and it maps the five example inputs of the spec to
exactly the listed outputs. -/
theorem merge_extents_adjacency_rule_and_examples :
    (∀ (es : List ByteRange) (p e : ByteRange) (merged : List ByteRange),
      merge_extents_loop (e :: es) (some p) merged =
        if e.start = p.stop + 1 then
          merge_extents_loop es (some { start := p.start, stop := e.stop }) merged
        else merge_extents_loop es (some e) (merged ++ [p]))
    ∧ (∀ p e : ByteRange, merge_extents_list [p, e] =
        if e.start = p.stop + 1 then [{ start := p.start, stop := e.stop }] else [p, e])
    ∧ merge_extents [] = .ok []
    ∧ merge_extents [⟨0, 1⟩] = .ok [⟨0, 1⟩]
    ∧ merge_extents [⟨0, 10⟩, ⟨11, 20⟩] = .ok [⟨0, 20⟩]
    ∧ merge_extents [⟨0, 5⟩, ⟨11, 20⟩, ⟨21, 30⟩, ⟨40, 50⟩] = .ok [⟨0, 5⟩, ⟨11, 30⟩, ⟨40, 50⟩]
    ∧ merge_extents [⟨0, 10⟩, ⟨11, 20⟩, ⟨21, 30⟩, ⟨31, 50⟩, ⟨51, 60⟩] = .ok [⟨0, 60⟩] := by
  refine ⟨fun es p e merged => rfl, fun p e => ?_, rfl, rfl, rfl, rfl, rfl⟩
  by_cases h : e.start = p.stop + 1 <;>
    simp [merge_extents_list, merge_extents_loop, h]

/-- C3 (counterexample): the union of byte positions is not preserved by
`merge_extents`.  On the well-formed, sorted, non-overlapping input
`[[0,1), [2,10)]` the function merges (since `2 = 1 + 1`) into `[[0,10)]`,
which covers byte position `1` even though the input does not. -/
theorem merge_extents_union_counterexample :
    merge_extents [⟨0, 1⟩, ⟨2, 10⟩] = .ok [⟨0, 10⟩]
    ∧ coveredPos [⟨0, 1⟩, ⟨2, 10⟩] 1 = false
    ∧ coveredPos [⟨0, 10⟩] 1 = true :=
  ⟨rfl, by decide, by decide⟩

/-- C3 (amended): for every input whose ranges are well-formed
(`start ≤ end`), every byte position covered by the input is covered by the
output of `merge_extents`; the converse fails (merging covers the one-byte
gap between coalesced ranges, see the counterexample). -/
theorem merge_extents_covers (xs : List ByteRange)
    (hwf : ∀ r ∈ xs, r.start ≤ r.stop) (x : Nat)
    (hx : coveredPos xs x = true) :
    coveredPos (merge_extents_list xs) x = true := by
  cases xs with
  | nil => simp [coveredPos] at hx
  | cons r rs =>
    have hrwf : r.start ≤ r.stop := hwf r (by simp)
    have hwf' : ∀ q ∈ rs, q.start ≤ q.stop := fun q hq => hwf q (by simp [hq])
    apply merge_extents_loop_covers rs r [] x hwf' hrwf
    simp only [coveredPos, List.any_cons, Bool.or_eq_true, Bool.and_eq_true,
      decide_eq_true_eq] at hx
    rcases hx with hx | hx
    · exact Or.inr (Or.inl hx)
    · exact Or.inr (Or.inr hx)

/-- Witness for the amended C3 theorem at a concrete input. -/
theorem merge_extents_covers_witness :
    coveredPos (merge_extents_list [⟨0, 1⟩, ⟨2, 10⟩]) 5 = true :=
  merge_extents_covers [⟨0, 1⟩, ⟨2, 10⟩] (by decide) 5 (by decide)

/-- C4: `merge_extents` is idempotent: running it on its own output (through
the `Result` bind) returns the output unchanged. -/
theorem merge_extents_idempotent :
    ∀ xs : List ByteRange, (merge_extents xs).bind merge_extents = merge_extents xs := by
  intro xs
  show Except.ok (merge_extents_list (merge_extents_list xs)) = _
  rw [merge_extents_list_of_chain _ (merge_extents_list_chain xs)]
  rfl

/-- C10: `merge_extents` is total and never fails: the body of the Rust
function has no fallible operation, so every input yields `Ok`. -/
theorem merge_extents_never_errors :
    ∀ xs : List ByteRange, ∃ ys, merge_extents xs = Except.ok ys :=
  fun xs => ⟨merge_extents_list xs, rfl⟩

/-! ## Helper lemmas for the copy loops -/

/-- Invariant of the `copy_bytes_uspace` loop: under the `read` contract,
starting from `written ≤ nbytes`, a successful return carries exactly
`nbytes`. -/
theorem copy_bytes_uspace_go_ok (readF : Nat → Nat → ReadRes) (writeF : Nat → WriteRes)
    (nbytes : Nat) (hread : ReadContract readF) :
    ∀ (fuel ridx widx written n : Nat), written ≤ nbytes →
      copy_bytes_uspace_go readF writeF nbytes fuel ridx widx written = .ok n →
      n = nbytes := by
  intro fuel
  induction fuel with
  | zero =>
    intro ridx widx written n _ h
    simp [copy_bytes_uspace_go] at h
  | succ fuel ih =>
    intro ridx widx written n hle h
    rw [copy_bytes_uspace_go] at h
    by_cases hlt : written < nbytes
    · rw [if_pos hlt] at h
      simp only [] at h
      split at h
      · simp at h
      · rename_i len hne heq
        split at h
        · have hlen : len ≤ nbytes - written :=
            le_trans (hread _ _ _ heq) (min_le_left _ _)
          exact ih _ _ _ _ (by omega) h
        · simp at h
      · rename_i k heq
        split at h
        · exact ih _ _ _ _ hle h
        · simp at h
    · rw [if_neg hlt] at h
      injection h with h'
      omega

/-- Invariant of the `copy_range_uspace` loop: under the `pread` contract,
starting from `written ≤ nbytes`, a successful return carries exactly
`nbytes`. -/
theorem copy_range_uspace_go_ok (preadF : Nat → Nat → Nat → ReadRes)
    (pwriteF : Nat → Nat → Nat → PwriteRes) (nbytes off : Nat)
    (hpread : PreadContract preadF) :
    ∀ (fuel ridx widx written n : Nat), written ≤ nbytes →
      copy_range_uspace_go preadF pwriteF nbytes off fuel ridx widx written = .ok n →
      n = nbytes := by
  intro fuel
  induction fuel with
  | zero =>
    intro ridx widx written n _ h
    simp [copy_range_uspace_go] at h
  | succ fuel ih =>
    intro ridx widx written n hle h
    rw [copy_range_uspace_go] at h
    by_cases hlt : written < nbytes
    · rw [if_pos hlt] at h
      simp only [] at h
      split at h
      · simp at h
      · rename_i rlen hne heq
        split at h
        · rename_i wlen heqw
          split at h
          · simp at h
          · have hlen : rlen ≤ nbytes - written :=
              le_trans (hpread _ _ _ _ heq) (min_le_left _ _)
            exact ih _ _ _ _ (by omega) h
        · simp at h
      · simp at h
    · rw [if_neg hlt] at h
      injection h with h'
      omega

/-- Invariant of the `copy_bytes_batched` loop: under the `copy_file_bytes`
contract, starting from `written ≤ len`, a successful return carries exactly
`len`. -/
theorem copy_bytes_batched_go_ok (cfbF : Nat → Nat → Except XErr Nat)
    (cbF : Nat → Nat → Except XErr Unit) (len batch_size : Nat)
    (hcfb : CopyFileBytesContract cfbF) :
    ∀ (fuel idx written n : Nat), written ≤ len →
      copy_bytes_batched_go cfbF cbF len batch_size fuel idx written = .ok n →
      n = len := by
  intro fuel
  induction fuel with
  | zero =>
    intro idx written n _ h
    simp [copy_bytes_batched_go] at h
  | succ fuel ih =>
    intro idx written n hle h
    rw [copy_bytes_batched_go] at h
    by_cases hlt : written < len
    · rw [if_pos hlt] at h
      simp only [] at h
      split at h
      · simp at h
      · rename_i result heq
        split at h
        · simp at h
        · have hlen : result ≤ len - written :=
            le_trans (hcfb _ _ _ heq) (min_le_left _ _)
          exact ih _ _ _ (by omega) h
    · rw [if_neg hlt] at h
      injection h with h'
      omega

/-- C1: every user-space byte copy that returns successfully returns exactly
the requested length: `copy_bytes_uspace` and `copy_range_uspace` under the
POSIX read/pread contract (a read never returns more than the buffer
length), and `copy_bytes_batched` under the `copy_file_bytes` contract (a
successful call copies at most the requested count). -/
theorem copy_success_returns_requested_length :
    (∀ readF writeF nbytes fuel n, ReadContract readF →
      copy_bytes_uspace readF writeF nbytes fuel = .ok n → n = nbytes)
    ∧ (∀ preadF pwriteF nbytes off fuel n, PreadContract preadF →
      copy_range_uspace preadF pwriteF nbytes off fuel = .ok n → n = nbytes)
    ∧ (∀ cfbF cbF len batch_size fuel n, CopyFileBytesContract cfbF →
      copy_bytes_batched cfbF cbF len batch_size fuel = .ok n → n = len) :=
  ⟨fun readF writeF nbytes fuel n hc h =>
      copy_bytes_uspace_go_ok readF writeF nbytes hc fuel 0 0 0 n (Nat.zero_le _) h,
   fun preadF pwriteF nbytes off fuel n hc h =>
      copy_range_uspace_go_ok preadF pwriteF nbytes off hc fuel 0 0 0 n (Nat.zero_le _) h,
   fun cfbF cbF len batch_size fuel n hc h =>
      copy_bytes_batched_go_ok cfbF cbF len batch_size hc fuel 0 0 n (Nat.zero_le _) h⟩

/-- Witness for C1: concrete oracles satisfying the contracts, on which each
of the three copies succeeds with exactly the requested length. -/
theorem copy_success_returns_requested_length_witness :
    copy_bytes_uspace (fun _ m => .ok m) (fun _ => .ok) 3 2 = .ok 3
    ∧ copy_range_uspace (fun _ m _ => .ok m) (fun _ m _ => .ok m) 3 7 2 = .ok 3
    ∧ copy_bytes_batched (fun _ m => .ok m) (fun _ _ => .ok ()) 3 2 3 = .ok 3
    ∧ (3 : Nat) = 3 := by
  refine ⟨rfl, rfl, rfl, ?_⟩
  exact copy_success_returns_requested_length.1 (fun _ m => .ok m) (fun _ => .ok) 3 2 3
    (fun i m n h => by injection h with h'; omega) rfl

/-- The buffer slice length requested by each loop iteration,
`min (nbytes - written) nbytes`, is just `nbytes - written`. -/
theorem read_request_min_eq (a b : Nat) : min (a - b) a = a - b :=
  min_eq_left (Nat.sub_le _ _)

/-- C5: in both user-space copies, a read that returns 0 bytes while
`written < nbytes` makes the function return the fatal premature-EOF error
immediately (the error the source spells
`Error::InvalidSource("Source file ended prematurely.")`). -/
theorem zero_read_is_fatal_eof :
    (∀ readF writeF nbytes fuel ridx widx written, written < nbytes →
      readF ridx (min (nbytes - written) nbytes) = .ok 0 →
      copy_bytes_uspace_go readF writeF nbytes (fuel + 1) ridx widx written =
        .error (.invalidSource "Source file ended prematurely."))
    ∧ (∀ preadF pwriteF nbytes off fuel ridx widx written, written < nbytes →
      preadF ridx (min (nbytes - written) nbytes) (off + written) = .ok 0 →
      copy_range_uspace_go preadF pwriteF nbytes off (fuel + 1) ridx widx written =
        .error (.invalidSource "Source file ended prematurely.")) := by
  constructor
  · intro readF writeF nbytes fuel ridx widx written hlt hr
    rw [read_request_min_eq] at hr
    simp [copy_bytes_uspace_go, hlt, hr]
  · intro preadF pwriteF nbytes off fuel ridx widx written hlt hr
    rw [read_request_min_eq] at hr
    simp [copy_range_uspace_go, hlt, hr]

/-- Witness for C5: a first read returning 0 on a 1-byte copy. -/
theorem zero_read_is_fatal_eof_witness :
    copy_bytes_uspace_go (fun _ _ => .ok 0) (fun _ => .ok) 1 1 0 0 0 =
      .error (.invalidSource "Source file ended prematurely.")
    ∧ copy_range_uspace_go (fun _ _ _ => .ok 0) (fun _ m _ => .ok m) 1 0 1 0 0 0 =
      .error (.invalidSource "Source file ended prematurely.") :=
  ⟨zero_read_is_fatal_eof.1 _ _ 1 0 0 0 0 (by decide) rfl,
   zero_read_is_fatal_eof.2 _ _ 1 0 0 0 0 0 (by decide) rfl⟩

/-- C6 (counterexample): in `copy_range_uspace` an interrupted (`EINTR`)
pread is NOT retried: it is propagated as an error return. -/
theorem interrupted_read_counterexample :
    copy_range_uspace (fun _ _ _ => .err .interrupted) (fun _ m _ => .ok m) 1 0 5 =
      .error (.io .interrupted) := rfl

/-- C6 (amended): `copy_bytes_uspace` retries an interrupted read
transparently (the loop re-enters with the same `written`) and, provided
`write_all` never reports `Interrupted` (as `std`'s `write_all` never does),
never returns an interrupted-IO error; `copy_range_uspace`, by contrast,
returns any pread error — including `Interrupted` — directly. -/
theorem interrupted_read_retried_amended :
    (∀ readF writeF nbytes fuel ridx widx written, written < nbytes →
      readF ridx (min (nbytes - written) nbytes) = .err .interrupted →
      copy_bytes_uspace_go readF writeF nbytes (fuel + 1) ridx widx written =
        copy_bytes_uspace_go readF writeF nbytes fuel (ridx + 1) widx written)
    ∧ (∀ readF writeF nbytes fuel ridx widx written,
      (∀ j, writeF j ≠ .err .interrupted) →
      copy_bytes_uspace_go readF writeF nbytes fuel ridx widx written ≠
        .error (.io .interrupted))
    ∧ (∀ preadF pwriteF nbytes off fuel ridx widx written k, written < nbytes →
      preadF ridx (min (nbytes - written) nbytes) (off + written) = .err k →
      copy_range_uspace_go preadF pwriteF nbytes off (fuel + 1) ridx widx written =
        .error (.io k)) := by
  refine ⟨?_, ?_, ?_⟩
  · intro readF writeF nbytes fuel ridx widx written hlt hr
    rw [read_request_min_eq] at hr
    simp [copy_bytes_uspace_go, hlt, hr]
  · intro readF writeF nbytes fuel
    induction fuel with
    | zero =>
      intro ridx widx written _ h
      simp [copy_bytes_uspace_go] at h
    | succ fuel ih =>
      intro ridx widx written hw h
      rw [copy_bytes_uspace_go] at h
      by_cases hlt : written < nbytes
      · rw [if_pos hlt] at h
        simp only [] at h
        split at h
        · simp at h
        · rename_i len hne heq
          split at h
          · exact ih _ _ _ hw h
          · rename_i k heqw
            have hne' := hw widx
            rw [heqw] at hne'
            simp at h
            exact hne' (by rw [h])
        · rename_i k heq
          split at h
          · exact ih _ _ _ hw h
          · rename_i hk
            simp at h
            exact hk h
      · rw [if_neg hlt] at h
        simp at h
  · intro preadF pwriteF nbytes off fuel ridx widx written k hlt hr
    rw [read_request_min_eq] at hr
    simp [copy_range_uspace_go, hlt, hr]

/-- Witness for the amended C6 theorem at concrete oracles. -/
theorem interrupted_read_retried_amended_witness :
    (copy_bytes_uspace_go (fun _ _ => .err .interrupted) (fun _ => .ok) 1 1 0 0 0 =
      copy_bytes_uspace_go (fun _ _ => .err .interrupted) (fun _ => .ok) 1 0 1 0 0)
    ∧ (copy_bytes_uspace_go (fun _ _ => .err .interrupted) (fun _ => .ok) 1 3 0 0 0 ≠
      .error (.io .interrupted))
    ∧ (copy_range_uspace_go (fun _ _ _ => .err .interrupted) (fun _ m _ => .ok m) 1 0 1 0 0 0 =
      .error (.io .interrupted)) :=
  ⟨interrupted_read_retried_amended.1 _ _ 1 0 0 0 0 (by decide) rfl,
   interrupted_read_retried_amended.2.1 _ _ 1 3 0 0 0 (fun j h => WriteRes.noConfusion h),
   interrupted_read_retried_amended.2.2 _ _ 1 0 0 0 0 0 .interrupted (by decide) rfl⟩

/-- C7: in `copy_permissions` the xattr copy is attempted first (it heads
the action trace), its outcome never affects the returned result — which is
decided entirely by the metadata/`set_permissions` path, so a permission
copy failure is returned as an error — and a warning is logged exactly when
the xattr copy failed. -/
theorem copy_permissions_xattr_nonfatal_perm_fatal :
    ∀ sup listRes getF setF metaRes setPermF,
      ((copy_permissions sup listRes getF setF metaRes setPermF).1 =
        match metaRes with
        | .error e => .error e
        | .ok perms => setPermF perms)
      ∧ ((copy_permissions sup listRes getF setF metaRes setPermF).2.head? =
          some .xattrCopy)
      ∧ (PermEvent.warnXattrFailed ∈ (copy_permissions sup listRes getF setF metaRes setPermF).2 ↔
          ∃ e, copy_xattr sup listRes getF setF = .error e) := by
  intro sup listRes getF setF metaRes setPermF
  cases hx : copy_xattr sup listRes getF setF with
  | error e =>
    cases metaRes with
    | error em => simp [copy_permissions, hx]
    | ok p =>
      cases hsp : setPermF p with
      | error es => simp [copy_permissions, hx, hsp]
      | ok u => simp [copy_permissions, hx, hsp]
  | ok u =>
    cases metaRes with
    | error em => simp [copy_permissions, hx]
    | ok p =>
      cases hsp : setPermF p with
      | error es => simp [copy_permissions, hx, hsp]
      | ok u2 => simp [copy_permissions, hx, hsp]

/-- C8: with more than one source argument and a destination that is not a
directory, `main` fails pre-flight with `InvalidDestination`; since every
driver submission is an `Except.ok` result of `xcp_main`, no copy work is
submitted. -/
theorem multiple_sources_nondir_dest_rejected :
    ∀ (ps : List String) (d : String) (o : Opts) (fs : Fs) (ldr : Except XErr Unit),
      o.paths = ps ++ [d] → ps.length > 1 → fs.isDir d = false →
      xcp_main o fs ldr =
        .error (.invalidDestination "Multiple sources and destination is not a directory.") := by
  intro ps d o fs ldr hp hlen hdir
  unfold xcp_main
  rw [hp, List.getLast?_concat]
  simp only [List.dropLast_concat]
  rw [if_pos]
  simp [hdir, hlen]

/-- Witness for C8: two sources and a non-directory destination. -/
theorem multiple_sources_nondir_dest_rejected_witness :
    xcp_main
      { paths := ["a", "b", "f"], glob := false, no_clobber := false, recursive := false }
      { isDir := fun _ => false, isFile := fun _ => true, pathExists := fun _ => true,
        sameFile := fun _ _ => .ok false, globExpand := fun l => .ok l }
      (.ok ()) =
      .error (.invalidDestination "Multiple sources and destination is not a directory.") :=
  multiple_sources_nondir_dest_rejected ["a", "b"] "f" _ _ (.ok ()) rfl (by decide) rfl

/-- C9: `is_same_file` returns `Ok(true)` when both paths are the same
existing path (its two metadata reads agree on inode and device), and
`Ok(false)` for two existing paths on the same device with different
inodes. -/
theorem is_same_file_reflexive_and_distinguishes :
    (∀ metaF (p : String) s, metaF p = .ok s → is_same_file metaF p p = .ok true)
    ∧ (∀ metaF (p q : String) sp sq, metaF p = .ok sp → metaF q = .ok sq →
        p ≠ q → sp.dev = sq.dev → sp.ino ≠ sq.ino →
        is_same_file metaF p q = .ok false) := by
  constructor
  · intro metaF p s h
    simp [is_same_file, h]
  · intro metaF p q sp sq hp hq hpq hdev hino
    simp [is_same_file, hp, hq, hino]

/-- Witness for C9: a concrete metadata oracle with two distinct paths on
one device. -/
theorem is_same_file_witness :
    is_same_file (fun _ => .ok { ino := 7, dev := 1 }) "a" "a" = .ok true
    ∧ is_same_file
        (fun p => if p = "a" then .ok { ino := 7, dev := 1 } else .ok { ino := 8, dev := 1 })
        "a" "b" = .ok false :=
  ⟨is_same_file_reflexive_and_distinguishes.1 _ "a" { ino := 7, dev := 1 } rfl,
   is_same_file_reflexive_and_distinguishes.2 _ "a" "b"
     { ino := 7, dev := 1 } { ino := 8, dev := 1 } rfl rfl
     (by decide) rfl (by decide)⟩

